import Mathlib

/-!
Verification of the classification and query-cache core of the
`user-fraud-nlp` repository.

Part 1 embeds `src/cfpb_articles.py`: the `FRAUD_PATTERNS` table of
case-insensitive regular expressions, `classify_violation` (priority
resolution) and `tag_fraud`.

Python's `re` patterns are embedded as a small regular-expression AST
together with a Brzozowski-derivative matcher.  All patterns in the
source have the shape `\b inner \b` where every alternative of `inner`
begins and ends with a word character, so `re.search` is embedded as:
some position `i` with a word boundary on its left starts a match of
`inner` that ends at a position `j` with a word boundary on its right.
The `re.I` flag is embedded by lowercasing both the subject text and the
pattern literals (the source text is ASCII).
-/

namespace Cfpb

/-- Regular-expression AST: empty language, empty string, `.` (any char
except newline, as in Python `re` without DOTALL), a literal character,
alternation, concatenation, Kleene star. -/
inductive Regex where
  | emp : Regex
  | eps : Regex
  | dot : Regex
  | lit : Char → Regex
  | alt : Regex → Regex → Regex
  | seq : Regex → Regex → Regex
  | star : Regex → Regex
deriving DecidableEq, Repr

namespace Regex

/-- `r?` from the source patterns (`(ing)?`, `[- ]?`, `(ulation)?`). -/
def ropt (r : Regex) : Regex := alt r eps

/-- Does the regex accept the empty string? -/
def nullable : Regex → Bool
  | emp => false
  | eps => true
  | dot => false
  | lit _ => false
  | alt r s => nullable r || nullable s
  | seq r s => nullable r && nullable s
  | star _ => true

/-- Smart alternation: drops `emp` branches to keep derivatives small. -/
def mkAlt : Regex → Regex → Regex
  | emp, s => s
  | r, emp => r
  | r, s => alt r s

/-- Smart concatenation: propagates `emp` and drops `eps`. -/
def mkSeq : Regex → Regex → Regex
  | emp, _ => emp
  | _, emp => emp
  | eps, s => s
  | r, eps => r
  | r, s => seq r s

/-- Brzozowski derivative of a regex with respect to one character. -/
def deriv : Regex → Char → Regex
  | emp, _ => emp
  | eps, _ => emp
  | dot, c => if c = '\n' then emp else eps
  | lit a, c => if c = a then eps else emp
  | alt r s, c => mkAlt (deriv r c) (deriv s c)
  | seq r s, c =>
      if nullable r then mkAlt (mkSeq (deriv r c) s) (deriv s c)
      else mkSeq (deriv r c) s
  | star r, c => mkSeq (deriv r c) (star r)

/-- Is the regex syntactically the empty language (used to cut off dead
search branches early)? -/
def isEmp : Regex → Bool
  | emp => true
  | _ => false

end Regex

/-- Word character for `\b`, as in Python `re` on ASCII text:
`[A-Za-z0-9_]`. -/
def isWordChar (c : Char) : Bool := c.isAlphanum || c = '_'

/-- Does some prefix of `cs` match `r` such that the end of that prefix
sits on a word boundary (next character absent or not a word character)?
All source patterns end in a word character, so this is the meaning of
the trailing `\b`. -/
def matchEndB (r : Regex) : List Char → Bool
  | [] => r.nullable
  | c :: cs =>
      (r.nullable && !isWordChar c) ||
      (if r.isEmp then false else matchEndB (r.deriv c) cs)

/-- Scan all start positions: `prevW` says whether the character just
before the current position is a word character.  All source patterns
begin with a word character, so the leading `\b` holds exactly at
positions not preceded by a word character. -/
def searchAux (r : Regex) : Bool → List Char → Bool
  | prevW, [] => !prevW && r.nullable
  | prevW, c :: cs => (!prevW && matchEndB r (c :: cs)) || searchAux r (isWordChar c) cs

/-- Embedding of `FRAUD_REGEX[k].search(t)`: case-insensitive search of
`\b r \b` anywhere in `s`. -/
def rsearch (r : Regex) (s : String) : Bool :=
  searchAux r false (s.data.map Char.toLower)

/-- A lowercased literal string as a regex (pattern literals are matched
case-insensitively under `re.I`; we store them lowercased). -/
def rstr (s : String) : Regex :=
  (s.data.map Char.toLower).foldr (fun c r => Regex.seq (Regex.lit c) r) Regex.eps

/-- `(a|b|...)` over a list of alternatives. -/
def ralts (rs : List Regex) : Regex :=
  match rs with
  | [] => Regex.emp
  | [r] => r
  | r :: rs => Regex.alt r (ralts rs)

/-- The `FRAUD_PATTERNS` table of `src/cfpb_articles.py` (insertion
order preserved), each value the AST of the source's regular expression
with the outer `\b ... \b` stripped (the boundaries are applied by
`rsearch`). -/
def FRAUD_PATTERNS : List (String × Regex) := [
  ("identity_theft", ralts [rstr "identity theft", rstr "stolen identity", rstr "synthetic identity"]),
  ("account_takeover", ralts [rstr "account takeover", rstr "ATO", rstr "SIM swap", rstr "credential stuffing"]),
  ("check_fraud", ralts [rstr "check fraud", rstr "fake check", rstr "counterfeit check", rstr "check kiting"]),
  ("card_fraud", Regex.seq (ralts [rstr "credit", rstr "debit"])
      (Regex.seq (rstr " card ")
        (ralts [rstr "fraud", rstr "skimming", rstr "cloning", rstr "chargeback"]))),
  ("wire_transfer", ralts [rstr "wire fraud", rstr "unauthorized wire", rstr "zelle", rstr "money transfer fraud"]),
  ("phishing", ralts [rstr "phish", rstr "phishing", rstr "smishing", rstr "vishing"]),
  ("crypto", Regex.seq (ralts [rstr "crypto", rstr "bitcoin", rstr "ethereum"])
      (Regex.seq (Regex.star Regex.dot) (ralts [rstr "fraud", rstr "scam", rstr "rug"]))),
  ("romance", ralts [rstr "romance scam", rstr "catfish"]),
  ("pig_butchering", Regex.seq (rstr "pig")
      (Regex.seq (Regex.ropt (ralts [Regex.lit '-', Regex.lit ' ']))
        (Regex.seq (rstr "butcher") (Regex.ropt (rstr "ing"))))),
  ("money_laundering", ralts [rstr "money laundering", rstr "laundered", rstr "AML"]),
  ("udap", ralts [rstr "unfair", rstr "deceptive", rstr "abusive"]),
  ("reg_e", ralts [Regex.seq (rstr "Reg") (Regex.seq (Regex.ropt (rstr "ulation")) (rstr " E")),
      rstr "Electronic Fund Transfer Act", rstr "EFTA", rstr "unauthorized transfer", rstr "error resolution"]),
  ("reg_z", ralts [Regex.seq (rstr "Reg") (Regex.seq (Regex.ropt (rstr "ulation")) (rstr " Z")),
      rstr "Truth in Lending Act", rstr "billing error"]),
  ("fcra", ralts [rstr "FCRA", rstr "credit reporting", rstr "reinvestigate", rstr "consumer report", rstr "inaccurate information"]),
  ("debt_collection", ralts [rstr "debt collection", rstr "collector", rstr "FDCPA", rstr "collection lawsuit"]),
  ("loan_servicing", ralts [rstr "servicing", rstr "loan modification", rstr "forbearance", rstr "deferral"]),
  ("mortgage_misconduct", ralts [rstr "mortgage", rstr "refinance", rstr "APR", rstr "closing disclosure", rstr "loan estimate"]),
  ("auto_lending", ralts [rstr "auto loan", rstr "vehicle financing", rstr "dealer markup", rstr "indirect auto"]),
  ("student_loan", ralts [rstr "student loan", rstr "servicer", rstr "FAFSA", rstr "borrower defense"]),
  ("remittance", ralts [rstr "remittance", rstr "exchange rate", rstr "transfer fee", rstr "prepaid card"]),
  ("credit_furnishing", ralts [rstr "furnish", rstr "furnisher", rstr "credit bureau", rstr "data furnishing"]),
  ("payments_app_failure", ralts [rstr "Cash App", rstr "peer-to-peer", rstr "P2P", rstr "dispute investigation"]),
  ("privacy_data_abuse", ralts [Regex.seq (rstr "data ") (ralts [rstr "harvesting", rstr "sharing", rstr "breach"]),
      rstr "privacy violation"]),
  ("generic", ralts [rstr "fraud", rstr "scam", rstr "scheme", rstr "deceptive"])
]

/-- The fixed priority list of `classify_violation`. -/
def priority : List String := [
  "identity_theft", "account_takeover", "card_fraud", "check_fraud",
  "wire_transfer", "phishing", "crypto", "pig_butchering", "romance",
  "money_laundering",
  "fcra", "reg_e", "reg_z", "udap", "debt_collection",
  "loan_servicing", "mortgage_misconduct", "auto_lending",
  "student_loan", "credit_furnishing", "payments_app_failure",
  "privacy_data_abuse", "remittance"]

/-- `classify_violation(hits)`: return the first entry of `priority`
contained in `hits`, else `"generic"`. -/
def classify_violation (hits : List String) : String :=
  match priority.find? (fun p => hits.contains p) with
  | some p => p
  | none => "generic"

/-- `tag_fraud(text)`: `t = text or ""` (an absent text is coerced to
the empty string), `hits` is the list of table keys whose pattern
matches somewhere in `t`, paired with the resolved category. -/
def tag_fraud (text : Option String) : List String × String :=
  let t := text.getD ""
  let hits := (FRAUD_PATTERNS.filter (fun kr => rsearch kr.2 t)).map Prod.fst
  (hits, classify_violation hits)

end Cfpb

namespace Cfpb

/-- Both components of `tag_fraud` are linked by `classify_violation`. -/
theorem tag_fraud_snd (text : Option String) :
    (tag_fraud text).2 = classify_violation (tag_fraud text).1 := rfl

/-- `classify_violation` yields the fallback or a member of its input. -/
theorem classify_violation_mem_or_generic (hits : List String) :
    classify_violation hits = "generic" ∨ classify_violation hits ∈ hits := by
  unfold classify_violation
  cases h : priority.find? (fun p => hits.contains p) with
  | none => exact Or.inl rfl
  | some p => exact Or.inr (by simpa using List.find?_some h)

/-- `classify_violation` is `find?` over the priority list with a
`getD` fallback. -/
theorem classify_violation_eq_find? (hits : List String) :
    classify_violation hits =
      (priority.find? (fun p => decide (p ∈ hits))).getD "generic" := by
  unfold classify_violation
  have hcong : (fun p => hits.contains p) = (fun p => decide (p ∈ hits)) := by
    funext p; simp [List.contains]
  rw [hcong]
  cases priority.find? (fun p => decide (p ∈ hits)) <;> rfl

end Cfpb

/-- C1: for every input text (including empty or absent), `tag_fraud`
terminates and its primary category is either the fallback `"generic"`
or a member of the matched tags; the matched-tag list is non-empty
whenever the primary category is a specific (non-fallback) category. -/
theorem C1_primary_is_fallback_or_member (text : Option String) :
    ((Cfpb.tag_fraud text).2 = "generic" ∨
      (Cfpb.tag_fraud text).2 ∈ (Cfpb.tag_fraud text).1) ∧
    ((Cfpb.tag_fraud text).2 ≠ "generic" → (Cfpb.tag_fraud text).1 ≠ []) := by
  have h := Cfpb.classify_violation_mem_or_generic (Cfpb.tag_fraud text).1
  rw [← Cfpb.tag_fraud_snd] at h
  refine ⟨h, fun hne => ?_⟩
  rcases h with h | h
  · exact absurd h hne
  · exact List.ne_nil_of_mem h

/-- Witness for C1 on the concrete input `"wire fraud"`, whose primary
category is specific. -/
theorem C1_primary_is_fallback_or_member_witness :
    ((Cfpb.tag_fraud (some "wire fraud")).2 = "generic" ∨
      (Cfpb.tag_fraud (some "wire fraud")).2 ∈ (Cfpb.tag_fraud (some "wire fraud")).1) ∧
    (Cfpb.tag_fraud (some "wire fraud")).1 ≠ [] :=
  ⟨(C1_primary_is_fallback_or_member (some "wire fraud")).1,
   (C1_primary_is_fallback_or_member (some "wire fraud")).2 (by decide)⟩

/-- C2: the primary category is the first element of the fixed priority
list occurring in the matched tags (fallback `"generic"` when none
occurs), and every true-fraud category outranks every regulatory
category in that list. -/
theorem C2_fixed_priority_list :
    (∀ text : Option String,
      (Cfpb.tag_fraud text).2 =
        (List.find? (fun p => decide (p ∈ (Cfpb.tag_fraud text).1))
          ["identity_theft", "account_takeover", "card_fraud", "check_fraud",
           "wire_transfer", "phishing", "crypto", "pig_butchering", "romance",
           "money_laundering", "fcra", "reg_e", "reg_z", "udap",
           "debt_collection", "loan_servicing", "mortgage_misconduct",
           "auto_lending", "student_loan", "credit_furnishing",
           "payments_app_failure", "privacy_data_abuse", "remittance"]).getD
          "generic") ∧
    (∀ f ∈ ["identity_theft", "account_takeover", "card_fraud", "check_fraud",
            "wire_transfer", "phishing", "crypto", "pig_butchering", "romance",
            "money_laundering"],
     ∀ r ∈ ["fcra", "reg_e", "reg_z", "udap", "debt_collection",
            "loan_servicing", "mortgage_misconduct", "auto_lending",
            "student_loan", "credit_furnishing", "payments_app_failure",
            "privacy_data_abuse", "remittance"],
      List.indexOf f Cfpb.priority < List.indexOf r Cfpb.priority) := by
  constructor
  · intro text
    rw [Cfpb.tag_fraud_snd]
    exact Cfpb.classify_violation_eq_find? (Cfpb.tag_fraud text).1
  · decide

/-- Witness for C2: identity theft (true fraud) outranks credit
reporting (regulatory). -/
theorem C2_fixed_priority_list_witness :
    List.indexOf "identity_theft" Cfpb.priority <
      List.indexOf "fcra" Cfpb.priority :=
  C2_fixed_priority_list.2 "identity_theft" (by decide) "fcra" (by decide)

/-- C3: on the documented example sentence the matched tags include
`romance`, `wire_transfer` and `generic`, and the primary category is
`wire_transfer`. -/
theorem C3_romance_wire_example :
    "romance" ∈ (Cfpb.tag_fraud (some "Consumers reported romance scam losses and wire fraud.")).1 ∧
    "wire_transfer" ∈ (Cfpb.tag_fraud (some "Consumers reported romance scam losses and wire fraud.")).1 ∧
    "generic" ∈ (Cfpb.tag_fraud (some "Consumers reported romance scam losses and wire fraud.")).1 ∧
    (Cfpb.tag_fraud (some "Consumers reported romance scam losses and wire fraud.")).2 = "wire_transfer" := by
  decide

/-- C4: the classifier is total — an absent text is coerced to the
empty string, the empty text matches nothing and falls back to
`"generic"`, and any no-match input yields the fallback category. -/
theorem C4_total_never_fails :
    Cfpb.tag_fraud none = Cfpb.tag_fraud (some "") ∧
    Cfpb.tag_fraud none = ([], "generic") ∧
    (∀ text : Option String,
      (Cfpb.tag_fraud text).1 = [] → (Cfpb.tag_fraud text).2 = "generic") := by
  refine ⟨rfl, by decide, fun text h => ?_⟩
  rw [Cfpb.tag_fraud_snd, h]
  decide

/-- Witness for C4 at the absent input. -/
theorem C4_total_never_fails_witness :
    (Cfpb.tag_fraud none).2 = "generic" :=
  C4_total_never_fails.2.2 none (by decide)

/-!
Part 2 embeds `src/semantic_search.py`.  `_normalize` is
`q.lower().strip()` followed by `re.sub(r"\s+", " ", q)`.  Characters
are modelled through their code points; `str.lower` is core
`Char.toLower` (ASCII), `str.strip` and `\s` use Python's ASCII
whitespace class.
-/

namespace SemanticSearch

/-- Python's whitespace class on ASCII text (`str.strip()` and `\s`):
space, tab, newline, carriage return, vertical tab, form feed. -/
def pySpace (c : Char) : Bool :=
  decide (c.toNat = 32 ∨ c.toNat = 9 ∨ c.toNat = 10 ∨ c.toNat = 13 ∨
          c.toNat = 11 ∨ c.toNat = 12)

/-- Drop leading whitespace. -/
def dropWS (cs : List Char) : List Char := cs.dropWhile pySpace

/-- Drop trailing whitespace. -/
def stripEnd (cs : List Char) : List Char := (dropWS cs.reverse).reverse

/-- `str.strip()`: drop whitespace from both ends. -/
def pyStrip (cs : List Char) : List Char := stripEnd (dropWS cs)

/-- `re.sub(r"\s+", " ", ·)` as a list transformer: every maximal run
of whitespace becomes a single space. -/
def collapse : List Char → List Char
  | [] => []
  | [c] => if pySpace c then [' '] else [c]
  | c :: d :: cs =>
      if pySpace c then
        (if pySpace d then collapse (d :: cs) else ' ' :: collapse (d :: cs))
      else c :: collapse (d :: cs)

/-- `_normalize(q)`: `q = q.lower().strip()` then
`q = re.sub(r"\s+", " ", q)`. -/
def _normalize (q : String) : String :=
  String.mk (collapse (pyStrip (q.data.map Char.toLower)))

/-- The spec's wording of normalization: lowercase the full string,
collapse any run of whitespace to a single space, strip
leading/trailing whitespace. -/
def normalizeSpecWords (q : String) : String :=
  String.mk (pyStrip (collapse (q.data.map Char.toLower)))

/-- `Char.ofNat` of a valid code point round-trips through `toNat`. -/
theorem charToNat_ofNat {n : Nat} (h : n.isValidChar) : (Char.ofNat n).toNat = n := by
  simp [Char.ofNat, h, Char.ofNatAux, Char.toNat, UInt32.toNat, BitVec.toNat_ofNatLt]

/-- Characters with equal code points are equal. -/
theorem char_eq_of_toNat_eq {c d : Char} (h : c.toNat = d.toNat) : c = d := by
  apply Char.eq_of_val_eq
  exact UInt32.toNat.inj h

/-- Code point of `Char.toLower`. -/
theorem toLower_toNat (c : Char) :
    (Char.toLower c).toNat =
      if c.toNat ≥ 65 ∧ c.toNat ≤ 90 then c.toNat + 32 else c.toNat := by
  unfold Char.toLower
  by_cases h : c.toNat ≥ 65 ∧ c.toNat ≤ 90
  · rw [if_pos h, if_pos h, charToNat_ofNat (Or.inl (by omega))]
  · rw [if_neg h, if_neg h]

/-- `str.lower` is idempotent on characters. -/
theorem toLower_toLower (c : Char) : c.toLower.toLower = c.toLower := by
  apply char_eq_of_toNat_eq
  rw [toLower_toNat, toLower_toNat]
  split_ifs <;> omega

/-- Lowercasing does not change whitespace-ness. -/
theorem pySpace_toLower (c : Char) : pySpace (Char.toLower c) = pySpace c := by
  simp only [pySpace, toLower_toNat, decide_eq_decide]
  split_ifs with h <;> omega

/-- The head remaining after `dropWS` is not whitespace. -/
theorem pySpace_head_dropWS :
    ∀ (cs : List Char) (c : Char) (rest : List Char),
      dropWS cs = c :: rest → pySpace c = false := by
  intro cs
  induction cs with
  | nil => intro c rest h; simp [dropWS] at h
  | cons a t ih =>
      intro c rest h
      by_cases ha : pySpace a
      · rw [dropWS, List.dropWhile_cons, if_pos ha] at h
        exact ih c rest h
      · rw [dropWS, List.dropWhile_cons, if_neg ha] at h
        cases h
        simpa using ha

theorem dropWS_cons_nonspace {c : Char} (cs : List Char) (h : pySpace c = false) :
    dropWS (c :: cs) = c :: cs := by
  simp [dropWS, List.dropWhile_cons, h]

theorem dropWS_cons_space {c : Char} (cs : List Char) (h : pySpace c = true) :
    dropWS (c :: cs) = dropWS cs := by
  simp [dropWS, List.dropWhile_cons, h]

theorem collapse_cons_nonspace (c : Char) (cs : List Char) (h : pySpace c = false) :
    collapse (c :: cs) = c :: collapse cs := by
  cases cs with
  | nil => simp [collapse, h]
  | cons d t => simp [collapse, h]

theorem collapse_cons_space_space (c d : Char) (cs : List Char)
    (hc : pySpace c = true) (hd : pySpace d = true) :
    collapse (c :: d :: cs) = collapse (d :: cs) := by
  simp [collapse, hc, hd]

theorem collapse_cons_space_nonspace (c d : Char) (cs : List Char)
    (hc : pySpace c = true) (hd : pySpace d = false) :
    collapse (c :: d :: cs) = ' ' :: collapse (d :: cs) := by
  simp [collapse, hc, hd]

/-- Collapsing commutes with dropping leading whitespace. -/
theorem collapse_dropWS : ∀ cs : List Char, collapse (dropWS cs) = dropWS (collapse cs) := by
  intro cs
  induction cs with
  | nil => rfl
  | cons c cs ih =>
    by_cases hc : pySpace c
    · cases cs with
      | nil =>
        rw [dropWS_cons_space _ hc]
        show collapse (dropWS []) = dropWS (collapse [c])
        rw [show collapse [c] = [' '] from by simp [collapse, hc]]
        rw [show dropWS [' '] = dropWS [] from dropWS_cons_space _ (by decide)]
        rfl
      | cons d t =>
        by_cases hd : pySpace d
        · rw [collapse_cons_space_space _ _ _ hc hd, dropWS_cons_space _ hc]
          rw [show dropWS (d :: t) = dropWS t from dropWS_cons_space _ hd] at ih ⊢
          exact ih
        · have hd' : pySpace d = false := by simpa using hd
          rw [collapse_cons_space_nonspace _ _ _ hc hd', dropWS_cons_space _ hc]
          rw [show dropWS (' ' :: collapse (d :: t)) = dropWS (collapse (d :: t)) from
            dropWS_cons_space _ (by decide)]
          exact ih
    · have hc' : pySpace c = false := by simpa using hc
      rw [dropWS_cons_nonspace _ hc', collapse_cons_nonspace _ _ hc']
      rw [dropWS_cons_nonspace _ hc']

/-- Is the last character whitespace? -/
def lastSp (cs : List Char) : Bool := (cs.getLast?.map pySpace).getD false

/-- Collapsing a list extended by one trailing character. -/
theorem collapse_append_single :
    ∀ (xs : List Char) (c : Char),
      collapse (xs ++ [c]) =
        if pySpace c then
          (if lastSp xs then collapse xs else collapse xs ++ [' '])
        else collapse xs ++ [c] := by
  intro xs
  induction xs with
  | nil => intro c; by_cases h : pySpace c <;> simp [collapse, lastSp, h]
  | cons a xs ih =>
    intro c
    cases xs with
    | nil =>
      by_cases ha : pySpace a <;> by_cases hc : pySpace c <;>
        simp [collapse, lastSp, ha, hc]
    | cons b t =>
      have hlast : lastSp (a :: b :: t) = lastSp (b :: t) := by
        simp [lastSp, List.getLast?_cons_cons]
      have hstep : (a :: b :: t) ++ [c] = a :: ((b :: t) ++ [c]) := rfl
      by_cases ha : pySpace a
      · by_cases hb : pySpace b
        · rw [hstep, show (b :: t) ++ [c] = b :: (t ++ [c]) from rfl]
          rw [collapse_cons_space_space _ _ _ ha hb]
          rw [show b :: (t ++ [c]) = (b :: t) ++ [c] from rfl, ih]
          rw [collapse_cons_space_space _ _ _ ha hb, hlast]
        · have hb' : pySpace b = false := by simpa using hb
          rw [hstep, show (b :: t) ++ [c] = b :: (t ++ [c]) from rfl]
          rw [collapse_cons_space_nonspace _ _ _ ha hb']
          rw [show b :: (t ++ [c]) = (b :: t) ++ [c] from rfl, ih]
          rw [collapse_cons_space_nonspace _ _ _ ha hb', hlast]
          by_cases hc : pySpace c <;> by_cases hl : lastSp (b :: t) <;>
            simp [hc, hl]
      · have ha' : pySpace a = false := by simpa using ha
        rw [hstep, collapse_cons_nonspace _ _ ha', ih]
        rw [collapse_cons_nonspace _ _ ha', hlast]
        by_cases hc : pySpace c <;> by_cases hl : lastSp (b :: t) <;>
          simp [hc, hl]

/-- Collapsing commutes with list reversal (each whitespace run becomes
one space on either side). -/
theorem collapse_reverse : ∀ cs : List Char, collapse cs.reverse = (collapse cs).reverse := by
  intro cs
  induction cs with
  | nil => rfl
  | cons a cs ih =>
    rw [List.reverse_cons, collapse_append_single, ih]
    cases cs with
    | nil => by_cases ha : pySpace a <;> simp [collapse, lastSp, ha]
    | cons d t =>
      have hl : lastSp (t.reverse ++ [d]) = pySpace d := by
        simp [lastSp, List.getLast?_concat]
      by_cases ha : pySpace a
      · by_cases hd : pySpace d
        · rw [collapse_cons_space_space _ _ _ ha hd]
          simp [ha, hl, hd]
        · have hd' : pySpace d = false := by simpa using hd
          rw [collapse_cons_space_nonspace _ _ _ ha hd']
          simp [ha, hl, hd']
      · have ha' : pySpace a = false := by simpa using ha
        rw [collapse_cons_nonspace _ _ ha']
        simp [ha']

/-- Collapsing commutes with dropping trailing whitespace. -/
theorem collapse_stripEnd (cs : List Char) :
    collapse (stripEnd cs) = stripEnd (collapse cs) := by
  unfold stripEnd
  rw [show collapse (dropWS cs.reverse).reverse = (collapse (dropWS cs.reverse)).reverse from
    collapse_reverse _]
  rw [collapse_dropWS, collapse_reverse]

/-- Collapsing commutes with stripping. -/
theorem collapse_pyStrip (cs : List Char) :
    collapse (pyStrip cs) = pyStrip (collapse cs) := by
  unfold pyStrip
  rw [collapse_stripEnd, collapse_dropWS]

/-- Lowercasing commutes with collapsing (whitespace-ness is preserved
by `toLower`, and the inserted space is its own lowercase). -/
theorem map_toLower_collapse : ∀ cs : List Char,
    (collapse cs).map Char.toLower = collapse (cs.map Char.toLower) := by
  intro cs
  induction cs using collapse.induct with
  | case1 => rfl
  | case2 c h =>
    simp [collapse, h, pySpace_toLower]
  | case3 c h =>
    have h' : pySpace c = false := by simpa using h
    simp [collapse, h', pySpace_toLower]
  | case4 c d cs hc hd ih =>
    have hc2 : pySpace (Char.toLower c) = true := by rw [pySpace_toLower]; exact hc
    have hd2 : pySpace (Char.toLower d) = true := by rw [pySpace_toLower]; exact hd
    simp only [List.map_cons] at ih ⊢
    rw [collapse_cons_space_space _ _ _ hc hd,
        collapse_cons_space_space _ _ _ hc2 hd2]
    exact ih
  | case5 c d cs hc hd ih =>
    have hd' : pySpace d = false := by simpa using hd
    have hc2 : pySpace (Char.toLower c) = true := by rw [pySpace_toLower]; exact hc
    have hd2 : pySpace (Char.toLower d) = false := by rw [pySpace_toLower]; exact hd'
    simp only [List.map_cons] at ih ⊢
    rw [collapse_cons_space_nonspace _ _ _ hc hd',
        collapse_cons_space_nonspace _ _ _ hc2 hd2]
    simp only [List.map_cons]
    rw [show Char.toLower ' ' = ' ' from by decide, ih]
  | case6 c d cs hc ih =>
    have hc' : pySpace c = false := by simpa using hc
    have hc2 : pySpace (Char.toLower c) = false := by rw [pySpace_toLower]; exact hc'
    simp only [List.map_cons] at ih ⊢
    rw [collapse_cons_nonspace _ _ hc', collapse_cons_nonspace _ _ hc2]
    simp only [List.map_cons]
    rw [ih]

/-- Lowercasing commutes with dropping leading whitespace. -/
theorem map_toLower_dropWS (cs : List Char) :
    (dropWS cs).map Char.toLower = dropWS (cs.map Char.toLower) := by
  unfold dropWS
  rw [List.dropWhile_map]
  have h : (pySpace ∘ Char.toLower) = pySpace := by
    funext c
    simp [Function.comp, pySpace_toLower]
  rw [h]

/-- Lowercasing commutes with stripping. -/
theorem map_toLower_pyStrip (cs : List Char) :
    (pyStrip cs).map Char.toLower = pyStrip (cs.map Char.toLower) := by
  unfold pyStrip stripEnd
  rw [List.map_reverse, map_toLower_dropWS, List.map_reverse, map_toLower_dropWS]

/-- After dropping leading whitespace, additionally dropping trailing
whitespace leaves a list that still has no leading whitespace. -/
theorem dropWS_stripEnd_cons (c : Char) (rest : List Char) (h : pySpace c = false) :
    dropWS (stripEnd (c :: rest)) = stripEnd (c :: rest) := by
  have key : dropWS ((c :: rest).reverse) = []
      ∨ ∃ ys : List Char, dropWS ((c :: rest).reverse) = ys ++ [c] := by
    rw [List.reverse_cons]
    unfold dropWS
    rw [List.dropWhile_append]
    by_cases he : (rest.reverse.dropWhile pySpace).isEmpty
    · rw [if_pos he]
      right
      exact ⟨[], by simp [List.dropWhile_cons, h]⟩
    · rw [if_neg he]
      right
      exact ⟨rest.reverse.dropWhile pySpace, rfl⟩
  unfold stripEnd
  rcases key with hk | ⟨ys, hk⟩
  · rw [hk]
    rfl
  · rw [hk, List.reverse_append]
    rw [show ([c] : List Char).reverse ++ ys.reverse = c :: ys.reverse from by simp]
    rw [dropWS_cons_nonspace _ h]

/-- Dropping trailing whitespace is idempotent. -/
theorem stripEnd_stripEnd (ds : List Char) : stripEnd (stripEnd ds) = stripEnd ds := by
  unfold stripEnd dropWS
  rw [List.reverse_reverse, List.dropWhile_idempotent]

/-- Stripping is idempotent. -/
theorem pyStrip_pyStrip (cs : List Char) : pyStrip (pyStrip cs) = pyStrip cs := by
  unfold pyStrip
  have h1 : dropWS (stripEnd (dropWS cs)) = stripEnd (dropWS cs) := by
    cases hx : dropWS cs with
    | nil => rfl
    | cons c rest => exact dropWS_stripEnd_cons c rest (pySpace_head_dropWS cs c rest hx)
  rw [h1, stripEnd_stripEnd]

/-- Collapsing is idempotent. -/
theorem collapse_collapse : ∀ cs : List Char, collapse (collapse cs) = collapse cs := by
  intro cs
  induction cs using collapse.induct with
  | case1 => rfl
  | case2 c h =>
    rw [show collapse [c] = [' '] from by simp [collapse, h]]
    simp [collapse]
  | case3 c h =>
    have h' : pySpace c = false := by simpa using h
    have e : collapse [c] = [c] := by simp [collapse, h']
    rw [e, e]
  | case4 c d cs hc hd ih =>
    rw [collapse_cons_space_space _ _ _ hc hd, ih]
  | case5 c d cs hc hd ih =>
    have hd' : pySpace d = false := by simpa using hd
    rw [collapse_cons_space_nonspace _ _ _ hc hd']
    rw [collapse_cons_nonspace _ _ hd'] at ih ⊢
    rw [collapse_cons_space_nonspace _ _ _ (by decide) hd', ih]
  | case6 c d cs hc ih =>
    have hc' : pySpace c = false := by simpa using hc
    rw [collapse_cons_nonspace _ _ hc', collapse_cons_nonspace _ _ hc', ih]

/-- `str.lower` is idempotent on strings. -/
theorem map_toLower_map_toLower (cs : List Char) :
    (cs.map Char.toLower).map Char.toLower = cs.map Char.toLower := by
  rw [List.map_map]
  have h : (Char.toLower ∘ Char.toLower) = Char.toLower := by
    funext c
    exact toLower_toLower c
  rw [h]

/-- The source's strip-then-collapse equals the spec's
collapse-then-strip. -/
theorem normalize_eq_specWords (q : String) : _normalize q = normalizeSpecWords q := by
  unfold _normalize normalizeSpecWords
  rw [collapse_pyStrip]

/-- `_normalize` is idempotent. -/
theorem normalize_idem (q : String) : _normalize (_normalize q) = _normalize q := by
  unfold _normalize
  congr 1
  show collapse (pyStrip ((collapse (pyStrip (q.data.map Char.toLower))).map Char.toLower))
      = collapse (pyStrip (q.data.map Char.toLower))
  rw [map_toLower_collapse, map_toLower_pyStrip, map_toLower_map_toLower]
  rw [← collapse_pyStrip, pyStrip_pyStrip, collapse_collapse]

end SemanticSearch

/-- C5: `_normalize` lowercases, collapses every whitespace run to a
single space and strips the ends (the source's strip-then-collapse
order equals the spec's wording); it is idempotent; and it maps
`"  Zelle   Unauthorized TRANSFER "` to `"zelle unauthorized transfer"`. -/
theorem C5_normalize_spec_idem_example :
    (∀ x : String, SemanticSearch._normalize x = SemanticSearch.normalizeSpecWords x) ∧
    (∀ x : String,
      SemanticSearch._normalize (SemanticSearch._normalize x) = SemanticSearch._normalize x) ∧
    SemanticSearch._normalize "  Zelle   Unauthorized TRANSFER " = "zelle unauthorized transfer" :=
  ⟨SemanticSearch.normalize_eq_specWords, SemanticSearch.normalize_idem, by decide⟩

namespace SemanticSearch

/-!
`_qhash` is `hashlib.sha256(q.encode("utf-8")).hexdigest()`.  SHA-256
(FIPS 180-4) is embedded over `Nat` with explicit reduction modulo
`2 ^ 32`; bytes are `Nat` values below 256.
-/

/-- Addition modulo `2 ^ 32`. -/
def add32 (a b : Nat) : Nat := (a + b) % 4294967296

/-- Right rotation of a 32-bit word. -/
def rotr32 (x n : Nat) : Nat :=
  (x / 2 ^ n + x % 2 ^ n * 2 ^ (32 - n)) % 4294967296

/-- Bitwise complement within 32 bits. -/
def not32 (x : Nat) : Nat := x ^^^ 4294967295

/-- SHA-256 `Ch(x,y,z)`. -/
def sha2Ch (x y z : Nat) : Nat := (x &&& y) ^^^ (not32 x &&& z)

/-- SHA-256 `Maj(x,y,z)`. -/
def sha2Maj (x y z : Nat) : Nat := (x &&& y) ^^^ (x &&& z) ^^^ (y &&& z)

/-- SHA-256 `Σ0`. -/
def bigSigma0 (x : Nat) : Nat := rotr32 x 2 ^^^ rotr32 x 13 ^^^ rotr32 x 22

/-- SHA-256 `Σ1`. -/
def bigSigma1 (x : Nat) : Nat := rotr32 x 6 ^^^ rotr32 x 11 ^^^ rotr32 x 25

/-- SHA-256 `σ0`. -/
def smallSigma0 (x : Nat) : Nat := rotr32 x 7 ^^^ rotr32 x 18 ^^^ x / 2 ^ 3

/-- SHA-256 `σ1`. -/
def smallSigma1 (x : Nat) : Nat := rotr32 x 17 ^^^ rotr32 x 19 ^^^ x / 2 ^ 10

/-- The 64 SHA-256 round constants (FIPS 180-4), written in decimal. -/
def sha2K : List Nat := [
  1116352408, 1899447441, 3049323471, 3921009573,
  961987163, 1508970993, 2453635748, 2870763221,
  3624381080, 310598401, 607225278, 1426881987,
  1925078388, 2162078206, 2614888103, 3248222580,
  3835390401, 4022224774, 264347078, 604807628,
  770255983, 1249150122, 1555081692, 1996064986,
  2554220882, 2821834349, 2952996808, 3210313671,
  3336571891, 3584528711, 113926993, 338241895,
  666307205, 773529912, 1294757372, 1396182291,
  1695183700, 1986661051, 2177026350, 2456956037,
  2730485921, 2820302411, 3259730800, 3345764771,
  3516065817, 3600352804, 4094571909, 275423344,
  430227734, 506948616, 659060556, 883997877,
  958139571, 1322822218, 1537002063, 1747873779,
  1955562222, 2024104815, 2227730452, 2361852424,
  2428436474, 2756734187, 3204031479, 3329325298]

/-- The eight SHA-256 working variables. -/
structure Hash8 where
  w0 : Nat
  w1 : Nat
  w2 : Nat
  w3 : Nat
  w4 : Nat
  w5 : Nat
  w6 : Nat
  w7 : Nat

/-- The SHA-256 initial hash value. -/
def sha2H0 : Hash8 :=
  ⟨1779033703, 3144134277, 1013904242, 2773480762,
   1359893119, 2600822924, 528734635, 1541459225⟩

/-- Append the next word of the message schedule. -/
def wstep (ws : List Nat) : List Nat :=
  ws ++ [(smallSigma1 (ws.getD (ws.length - 2) 0) + ws.getD (ws.length - 7) 0 +
          smallSigma0 (ws.getD (ws.length - 15) 0) + ws.getD (ws.length - 16) 0) % 4294967296]

/-- Extend a 16-word block to the 64-word message schedule. -/
def schedule (block : List Nat) : List Nat := wstep^[48] block

/-- One SHA-256 round. -/
def sha2Round (st : Hash8) (kw : Nat × Nat) : Hash8 :=
  let t1 := (st.w7 + bigSigma1 st.w4 + sha2Ch st.w4 st.w5 st.w6 + kw.1 + kw.2) % 4294967296
  let t2 := (bigSigma0 st.w0 + sha2Maj st.w0 st.w1 st.w2) % 4294967296
  ⟨(t1 + t2) % 4294967296, st.w0, st.w1, st.w2, add32 st.w3 t1, st.w4, st.w5, st.w6⟩

/-- Compress one 16-word block into the running hash. -/
def compress (st : Hash8) (block : List Nat) : Hash8 :=
  let ws := schedule block
  let r := (sha2K.zip ws).foldl sha2Round st
  ⟨add32 st.w0 r.w0, add32 st.w1 r.w1, add32 st.w2 r.w2, add32 st.w3 r.w3,
   add32 st.w4 r.w4, add32 st.w5 r.w5, add32 st.w6 r.w6, add32 st.w7 r.w7⟩

/-- The message length in bits as eight big-endian bytes. -/
def lenBytes (n : Nat) : List Nat :=
  [n / 2 ^ 56 % 256, n / 2 ^ 48 % 256, n / 2 ^ 40 % 256, n / 2 ^ 32 % 256,
   n / 2 ^ 24 % 256, n / 2 ^ 16 % 256, n / 2 ^ 8 % 256, n % 256]

/-- SHA-256 padding: `0x80`, zeros to 56 mod 64, then the bit length. -/
def padMsg (msg : List Nat) : List Nat :=
  msg ++ [128] ++ List.replicate ((119 - msg.length % 64) % 64) 0 ++ lenBytes (8 * msg.length)

/-- Big-endian 32-bit words from bytes. -/
def bytesToWords : List Nat → List Nat
  | b0 :: b1 :: b2 :: b3 :: rest => (((b0 * 256 + b1) * 256 + b2) * 256 + b3) :: bytesToWords rest
  | _ => []

/-- Split a word list into 16-word blocks. -/
def chunks16 : List Nat → List (List Nat)
  | [] => []
  | w :: ws => ((w :: ws).take 16) :: chunks16 ((w :: ws).drop 16)
termination_by l => l.length
decreasing_by simp [List.length_drop]; omega

/-- SHA-256 over a byte list. -/
def sha256 (msg : List Nat) : Hash8 :=
  (chunks16 (bytesToWords (padMsg msg))).foldl compress sha2H0

/-- One lowercase hexadecimal digit. -/
def hexDigit (n : Nat) : Char :=
  if n < 10 then Char.ofNat (48 + n) else Char.ofNat (87 + n)

/-- Eight lowercase hex digits of a 32-bit word. -/
def wordHex (w : Nat) : List Char :=
  [hexDigit (w / 16 ^ 7 % 16), hexDigit (w / 16 ^ 6 % 16), hexDigit (w / 16 ^ 5 % 16),
   hexDigit (w / 16 ^ 4 % 16), hexDigit (w / 16 ^ 3 % 16), hexDigit (w / 16 ^ 2 % 16),
   hexDigit (w / 16 % 16), hexDigit (w % 16)]

/-- The UTF-8 bytes of a string. -/
def strBytes (s : String) : List Nat :=
  (s.data.flatMap String.utf8EncodeChar).map (fun b => b.toNat)

/-- `_qhash(q)`: the SHA-256 hex digest of the UTF-8 encoding of `q`. -/
def _qhash (q : String) : String :=
  let s := sha256 (strBytes q)
  String.mk (wordHex s.w0 ++ wordHex s.w1 ++ wordHex s.w2 ++ wordHex s.w3 ++
             wordHex s.w4 ++ wordHex s.w5 ++ wordHex s.w6 ++ wordHex s.w7)

/-- The digest is always 64 hex characters long. -/
theorem _qhash_length (q : String) : (_qhash q).length = 64 := by
  unfold _qhash
  simp [String.length, wordHex]

end SemanticSearch

namespace SemanticSearch

/-- A row of the `search_queries` table.  The embedding vector type `V`
is opaque to the cache (the provider returns it, the store keeps it).
`last_used_at` stands for the SQL `now()` timestamp.  In the source the
hit-path update reads `(res.data[0]["uses"] or 0) + 1`; on integer
`uses` values the `or 0` guard is the identity, so `uses` is a `Nat`. -/
structure QueryRow (V : Type) where
  query_text : String
  query_hash : String
  embedding : V
  uses : Nat
  last_used_at : Nat

/-- `get_or_create_query_embedding(query)`.  The `search_queries` table
is the list of rows (`select ... limit 1` is `find?`, an `update ...
eq("query_hash", h)` rewrites every row with that hash, `insert`
appends); the OpenAI client is the `provider` function; `now` is the
current timestamp.  Returns the embedding, the updated table, and the
number of provider calls made (0 on a hit, 1 on a miss).

Modelled from the spec: the `search_queries` schema (not in `src/`)
gives a fresh row a use counter of 1 (spec §4.3: insert a new cache row
with `use_count=1`). -/
def get_or_create_query_embedding {V : Type} (provider : String → V) (now : Nat)
    (table : List (QueryRow V)) (query : String) :
    V × List (QueryRow V) × Nat :=
  let norm := _normalize query
  let h := _qhash norm
  match table.find? (fun r => r.query_hash = h) with
  | some r =>
      (r.embedding,
       table.map (fun r2 =>
         if r2.query_hash = h then
           { r2 with uses := r.uses + 1, last_used_at := now }
         else r2),
       0)
  | none =>
      let emb := provider norm
      (emb, table ++ [⟨norm, h, emb, 1, now⟩], 1)

end SemanticSearch

/-- C6: the cache is keyed by the fixed-length (64 hex characters)
digest of the normalized query; a miss makes one provider call on the
normalized text and inserts `{normalized text, hash, vector, 1}`; a hit
makes no provider call, bumps the stored use count by one and refreshes
the timestamp, returning the stored vector; hence two calls with the
same query make exactly one provider call in total, the second returns
the same vector, and the use count advances from 1 to 2. -/
theorem C6_embedding_cache (V : Type) (provider : String → V) (now now2 : Nat)
    (table : List (SemanticSearch.QueryRow V)) (q : String)
    (hmiss : table.find?
      (fun r => r.query_hash = SemanticSearch._qhash (SemanticSearch._normalize q)) = none) :
    ((SemanticSearch._qhash (SemanticSearch._normalize q)).length = 64) ∧
    (SemanticSearch.get_or_create_query_embedding provider now table q =
      (provider (SemanticSearch._normalize q),
       table ++ [⟨SemanticSearch._normalize q,
                  SemanticSearch._qhash (SemanticSearch._normalize q),
                  provider (SemanticSearch._normalize q), 1, now⟩],
       1)) ∧
    (∀ (t : List (SemanticSearch.QueryRow V)) (r : SemanticSearch.QueryRow V) (m : Nat),
       t.find? (fun r2 => r2.query_hash = SemanticSearch._qhash (SemanticSearch._normalize q)) =
           some r →
       SemanticSearch.get_or_create_query_embedding provider m t q =
         (r.embedding,
          t.map (fun r2 =>
            if r2.query_hash = SemanticSearch._qhash (SemanticSearch._normalize q) then
              { r2 with uses := r.uses + 1, last_used_at := m }
            else r2),
          0)) ∧
    ((SemanticSearch.get_or_create_query_embedding provider now table q).2.2 +
       (SemanticSearch.get_or_create_query_embedding provider now2
         (SemanticSearch.get_or_create_query_embedding provider now table q).2.1 q).2.2 = 1) ∧
    ((SemanticSearch.get_or_create_query_embedding provider now2
        (SemanticSearch.get_or_create_query_embedding provider now table q).2.1 q).1 =
      (SemanticSearch.get_or_create_query_embedding provider now table q).1) ∧
    (((SemanticSearch.get_or_create_query_embedding provider now table q).2.1.find?
        (fun r => r.query_hash = SemanticSearch._qhash (SemanticSearch._normalize q))).map
        SemanticSearch.QueryRow.uses = some 1) ∧
    (((SemanticSearch.get_or_create_query_embedding provider now2
        (SemanticSearch.get_or_create_query_embedding provider now table q).2.1 q).2.1.find?
        (fun r => r.query_hash = SemanticSearch._qhash (SemanticSearch._normalize q))).map
        SemanticSearch.QueryRow.uses = some 2) := by
  set h := SemanticSearch._qhash (SemanticSearch._normalize q) with hh
  have hcall1 : SemanticSearch.get_or_create_query_embedding provider now table q =
      (provider (SemanticSearch._normalize q),
       table ++ [⟨SemanticSearch._normalize q, h,
                  provider (SemanticSearch._normalize q), 1, now⟩], 1) := by
    simp only [SemanticSearch.get_or_create_query_embedding, ← hh, hmiss]
  have hfind1 : (table ++ [(⟨SemanticSearch._normalize q, h,
      provider (SemanticSearch._normalize q), 1, now⟩ : SemanticSearch.QueryRow V)]).find?
      (fun r => r.query_hash = h) =
      some ⟨SemanticSearch._normalize q, h, provider (SemanticSearch._normalize q), 1, now⟩ := by
    rw [List.find?_append, hmiss]
    simp [List.find?]
  have hhit : ∀ (t : List (SemanticSearch.QueryRow V)) (r : SemanticSearch.QueryRow V) (m : Nat),
      t.find? (fun r2 => r2.query_hash = h) = some r →
      SemanticSearch.get_or_create_query_embedding provider m t q =
        (r.embedding,
         t.map (fun r2 =>
           if r2.query_hash = h then { r2 with uses := r.uses + 1, last_used_at := m }
           else r2),
         0) := by
    intro t r m hf
    simp only [SemanticSearch.get_or_create_query_embedding, ← hh, hf]
  refine ⟨SemanticSearch._qhash_length _, hcall1, hhit, ?_, ?_, ?_, ?_⟩
  · rw [hcall1]
    rw [hhit _ _ now2 hfind1]
    rfl
  · rw [hcall1]
    rw [hhit _ _ now2 hfind1]
  · rw [hcall1]
    simp only [hfind1]
    rfl
  · rw [hcall1]
    rw [hhit _ _ now2 hfind1]
    simp only []
    rw [List.find?_map]
    have hpred : ((fun r : SemanticSearch.QueryRow V => decide (r.query_hash = h)) ∘
        (fun r2 : SemanticSearch.QueryRow V =>
          if r2.query_hash = h then { r2 with uses := 1 + 1, last_used_at := now2 } else r2)) =
        (fun r : SemanticSearch.QueryRow V => decide (r.query_hash = h)) := by
      funext r2
      by_cases hr : r2.query_hash = h <;> simp [Function.comp, hr]
    rw [hpred, hfind1]
    simp

/-- Witness for C6 on an empty cache and the query `"q"`. -/
theorem C6_embedding_cache_witness :
    ([] : List (SemanticSearch.QueryRow Nat)).find?
      (fun r => r.query_hash = SemanticSearch._qhash (SemanticSearch._normalize "q")) = none ∧
    (SemanticSearch._qhash (SemanticSearch._normalize "q")).length = 64 :=
  ⟨rfl, (C6_embedding_cache Nat (fun _ => 0) 0 1 [] "q" rfl).1⟩

namespace SemanticSearch

/-- A candidate row returned by the `match_cfpb_articles` RPC.  The
search logic reads `title` and `date` through `r.get(...)` (absent/null
becomes `none`), and `similarity` by direct index.  Similarity is an
exact rational in the model. -/
structure Candidate where
  title : Option String
  url : String
  date : Option String
  similarity : ℚ
deriving DecidableEq, Repr

/-- `s.lower()` on strings. -/
def strLower (s : String) : String := String.mk (s.data.map Char.toLower)

/-- Python's `pat in s`: contiguous-substring test. -/
def substr (pat s : String) : Bool := s.data.tails.any (fun t => pat.data.isPrefixOf t)

/-- Python truthiness of the optional `year` argument (`if year:` —
`None` and `0` are falsy). -/
def optIntTruthy : Option Int → Bool
  | none => false
  | some y => decide (y ≠ 0)

/-- Python truthiness of an optional string (`if keyword:`,
`r.get("date")` — `None` and `""` are falsy). -/
def optStrTruthy : Option String → Bool
  | none => false
  | some s => decide (s ≠ "")

/-- Descending similarity, the sort key of `search` (Python
`sorted(rows, key=lambda r: r["similarity"], reverse=True)`). -/
def simDescR (a b : Candidate) : Prop := b.similarity ≤ a.similarity

instance : DecidableRel simDescR :=
  fun a b => inferInstanceAs (Decidable (b.similarity ≤ a.similarity))

instance : IsTotal Candidate simDescR := ⟨fun a b => le_total b.similarity a.similarity⟩

instance : IsTrans Candidate simDescR := ⟨fun _ _ _ h1 h2 => le_trans h2 h1⟩

/-- The local year/keyword filters of `search` (steps 3 of the source):
`rows = [r for r in rows if r.get("date") and str(year) in str(r["date"])]`
when `year` is truthy, then
`rows = [r for r in rows if keyword.lower() in (r.get("title") or "").lower()]`
when `keyword` is truthy. -/
def localFilter (year : Option Int) (keyword : Option String)
    (rows : List Candidate) : List Candidate :=
  let rows1 :=
    if optIntTruthy year then
      rows.filter (fun r =>
        optStrTruthy r.date && substr (toString (year.getD 0)) (r.date.getD ""))
    else rows
  if optStrTruthy keyword then
    rows1.filter (fun r => substr (strLower (keyword.getD "")) (strLower (r.title.getD "")))
  else rows1

/-- `search(query, top_k, threshold, year, keyword)` (source defaults:
`top_k=20`, `threshold=0.55`).  The external similarity service is the
`svc` parameter, called as `sb.rpc("match_cfpb_articles", {query_embedding,
match_count: 100, match_threshold})`; its `data` may be null
(`rpc.data or []`).  Python's `sorted` with `reverse=True` is stable,
embedded as a stable insertion sort on the descending-similarity key.
Returns the result rows and the updated query cache. -/
def search {V : Type} (provider : String → V)
    (svc : V → Nat → ℚ → Option (List Candidate)) (now : Nat)
    (table : List (QueryRow V)) (query : String)
    (top_k : Nat) (threshold : ℚ)
    (year : Option Int) (keyword : Option String) :
    List Candidate × List (QueryRow V) :=
  let qres := get_or_create_query_embedding provider now table query
  let rows := (svc qres.1 100 threshold).getD []
  let rows := localFilter year keyword rows
  ((List.insertionSort simDescR rows).take top_k, qres.2.1)

/-- Modelled from the spec: the `match_cfpb_articles` similarity service
(SQL, not in `src/`) returns the stored candidates whose similarity is
at least `match_threshold`, at most `match_count` of them (spec §4.4 and
§6: `threshold` is a minimum-similarity cutoff passed to the external
service).  Used for the spec's mocked-candidates example. -/
def mockSvc {V : Type} (cands : List Candidate) :
    V → Nat → ℚ → Option (List Candidate) :=
  fun _ n th => some ((cands.filter (fun c => th ≤ c.similarity)).take n)

end SemanticSearch

namespace SemanticSearch

/-- `0.9` as an exact rational. -/
def simNine : ℚ := ⟨9, 10, by decide, by decide⟩

/-- `0.6` as an exact rational (reduced to `3/5`). -/
def simSix : ℚ := ⟨3, 5, by decide, by decide⟩

/-- `0.3` as an exact rational. -/
def simThree : ℚ := ⟨3, 10, by decide, by decide⟩

/-- The spec example's threshold `0.55` as an exact rational. -/
def thr055 : ℚ := ⟨11, 20, by decide, by decide⟩

/-- The spec's mocked candidate rows with similarities `[0.9, 0.6, 0.3]`. -/
def mockA : Candidate := ⟨some "A", "u1", some "2023-01-01", simNine⟩

/-- Second mocked candidate (similarity `0.6`). -/
def mockB : Candidate := ⟨some "B", "u2", some "2024-01-01", simSix⟩

/-- Third mocked candidate (similarity `0.3`). -/
def mockC : Candidate := ⟨some "C", "u3", some "2025-01-01", simThree⟩

end SemanticSearch

/-- C7: `search` consults the external service only at the fixed
candidate count 100, independent of `top_k`; its result has length at
most `top_k` and is sorted by similarity descending; and on the spec's
mocked rows with similarities `[0.9, 0.6, 0.3]`, threshold `0.55` and
`top_k = 5` it returns exactly the two candidates with similarities
`[0.9, 0.6]` in that order. -/
theorem C7_search_top_k_and_order :
    (∀ (V : Type) (provider : String → V)
       (svc : V → Nat → ℚ → Option (List SemanticSearch.Candidate))
       (now : Nat) (table : List (SemanticSearch.QueryRow V)) (query : String)
       (tk : Nat) (th : ℚ) (yr : Option Int) (kw : Option String),
       SemanticSearch.search provider svc now table query tk th yr kw =
         SemanticSearch.search provider
           (fun v n t => if n = 100 then svc v n t else none)
           now table query tk th yr kw) ∧
    (∀ (V : Type) (provider : String → V)
       (svc : V → Nat → ℚ → Option (List SemanticSearch.Candidate))
       (now : Nat) (table : List (SemanticSearch.QueryRow V)) (query : String)
       (tk : Nat) (th : ℚ) (yr : Option Int) (kw : Option String),
       (SemanticSearch.search provider svc now table query tk th yr kw).1.length ≤ tk) ∧
    (∀ (V : Type) (provider : String → V)
       (svc : V → Nat → ℚ → Option (List SemanticSearch.Candidate))
       (now : Nat) (table : List (SemanticSearch.QueryRow V)) (query : String)
       (tk : Nat) (th : ℚ) (yr : Option Int) (kw : Option String),
       ((SemanticSearch.search provider svc now table query tk th yr kw).1.map
         SemanticSearch.Candidate.similarity).Sorted (· ≥ ·)) ∧
    ((SemanticSearch.search (fun _ => (0 : Nat))
        (SemanticSearch.mockSvc [SemanticSearch.mockA, SemanticSearch.mockB, SemanticSearch.mockC])
        0 [] "q" 5 SemanticSearch.thr055 none none).1 =
      [SemanticSearch.mockA, SemanticSearch.mockB]) := by
  refine ⟨fun V provider svc now table query tk th yr kw => rfl,
          fun V provider svc now table query tk th yr kw => List.length_take_le _ _,
          fun V provider svc now table query tk th yr kw => ?_, by decide⟩
  exact ((List.sorted_insertionSort SemanticSearch.simDescR _).sublist
    (List.take_sublist _ _)).map _ (fun a b h => h)

namespace SemanticSearch

/-- A candidate whose date string contains no `"0"` digit. -/
def cDate1111 : Candidate := ⟨some "T", "u", some "1111-11-11", simNine⟩

/-- A candidate with an ordinary 2023 date. -/
def cDate2023 : Candidate := ⟨some "T", "u", some "2023-01-01", simNine⟩

/-- A candidate with an absent date. -/
def cNoDate : Candidate := ⟨some "T", "u", none, simNine⟩

/-- Non-empty strings have non-empty character lists. -/
theorem data_ne_nil_of_ne_empty {k : String} (hk : k ≠ "") : k.data ≠ [] := by
  intro h
  apply hk
  cases k with
  | mk l => cases h; rfl

/-- A non-empty pattern is not a substring of the empty string. -/
theorem substr_empty_right (p : String) (hp : p.data ≠ []) : substr p "" = false := by
  cases hd : p.data with
  | nil => exact absurd hd hp
  | cons c cs => simp [substr, hd, List.tails, List.isPrefixOf]

end SemanticSearch

/-- C8 counterexample: the claim fails at the supplied year `0` —
Python's `if year:` treats `0` as no filter, so a candidate whose date
string `"1111-11-11"` does not contain `"0"` still survives with the
year filter supplied. -/
theorem C8_counterexample_year_zero :
    (SemanticSearch.search (fun _ => (0 : Nat))
      (fun _ _ _ => some [SemanticSearch.cDate1111]) 0 [] "q" 5 SemanticSearch.thr055
      (some 0) none).1 = [SemanticSearch.cDate1111] ∧
    SemanticSearch.substr (toString (0 : Int)) "1111-11-11" = false := by
  decide

/-- C8 (amended to non-zero years): with a non-zero year every returned
candidate has a truthy date containing the year's string; with a
non-empty keyword every returned candidate's title contains it
case-insensitively; a null service response or an empty candidate list
yields the empty sequence, not an error. -/
theorem C8_local_filters :
    (∀ (V : Type) (provider : String → V)
       (svc : V → Nat → ℚ → Option (List SemanticSearch.Candidate))
       (now : Nat) (table : List (SemanticSearch.QueryRow V)) (query : String)
       (tk : Nat) (th : ℚ) (y : Int) (kw : Option String)
       (r : SemanticSearch.Candidate),
       y ≠ 0 →
       r ∈ (SemanticSearch.search provider svc now table query tk th (some y) kw).1 →
       SemanticSearch.optStrTruthy r.date = true ∧
       SemanticSearch.substr (toString y) (r.date.getD "") = true) ∧
    (∀ (V : Type) (provider : String → V)
       (svc : V → Nat → ℚ → Option (List SemanticSearch.Candidate))
       (now : Nat) (table : List (SemanticSearch.QueryRow V)) (query : String)
       (tk : Nat) (th : ℚ) (yr : Option Int) (k : String)
       (r : SemanticSearch.Candidate),
       k ≠ "" →
       r ∈ (SemanticSearch.search provider svc now table query tk th yr (some k)).1 →
       SemanticSearch.substr (SemanticSearch.strLower k)
         (SemanticSearch.strLower (r.title.getD "")) = true) ∧
    (∀ (V : Type) (provider : String → V)
       (now : Nat) (table : List (SemanticSearch.QueryRow V)) (query : String)
       (tk : Nat) (th : ℚ) (yr : Option Int) (kw : Option String),
       (SemanticSearch.search provider (fun _ _ _ => none) now table query tk th yr kw).1 = []) ∧
    (∀ (V : Type) (provider : String → V)
       (now : Nat) (table : List (SemanticSearch.QueryRow V)) (query : String)
       (tk : Nat) (th : ℚ) (yr : Option Int) (kw : Option String),
       (SemanticSearch.search provider (fun _ _ _ => some []) now table query tk th yr kw).1 = []) := by
  have hmem : ∀ (l : List SemanticSearch.Candidate) (tk : Nat)
      (r : SemanticSearch.Candidate),
      r ∈ (List.insertionSort SemanticSearch.simDescR l).take tk → r ∈ l := by
    intro l tk r hr
    exact (List.perm_insertionSort SemanticSearch.simDescR l).subset
      (List.mem_of_mem_take hr)
  refine ⟨?_, ?_, ?_, ?_⟩
  · intro V provider svc now table query tk th y kw r hy hr
    have h1 := hmem _ _ _ hr
    have hyt : SemanticSearch.optIntTruthy (some y) = true := by
      simp [SemanticSearch.optIntTruthy, hy]
    unfold SemanticSearch.localFilter at h1
    rw [hyt] at h1
    simp only [if_true] at h1
    have h2 : r ∈ ((svc (SemanticSearch.get_or_create_query_embedding
        provider now table query).1 100 th).getD []).filter (fun r =>
        SemanticSearch.optStrTruthy r.date &&
        SemanticSearch.substr (toString ((some y : Option Int).getD 0)) (r.date.getD "")) := by
      by_cases hkw : SemanticSearch.optStrTruthy kw
      · rw [if_pos hkw] at h1
        exact List.mem_of_mem_filter h1
      · rw [if_neg hkw] at h1
        exact h1
    have h3 := (List.mem_filter.mp h2).2
    simpa using h3
  · intro V provider svc now table query tk th yr k r hk hr
    have h1 := hmem _ _ _ hr
    have hkt : SemanticSearch.optStrTruthy (some k) = true := by
      simp [SemanticSearch.optStrTruthy, hk]
    unfold SemanticSearch.localFilter at h1
    rw [hkt] at h1
    simp only [if_true] at h1
    have h3 := (List.mem_filter.mp h1).2
    simpa using h3
  · intro V provider now table query tk th yr kw
    show (List.insertionSort _ (SemanticSearch.localFilter yr kw ((none : Option (List SemanticSearch.Candidate)).getD []))).take tk = []
    simp [SemanticSearch.localFilter]
  · intro V provider now table query tk th yr kw
    show (List.insertionSort _ (SemanticSearch.localFilter yr kw ((some ([] : List SemanticSearch.Candidate)).getD []))).take tk = []
    simp [SemanticSearch.localFilter]

/-- Witness for C8 with year 2023 and a candidate dated 2023-01-01. -/
theorem C8_local_filters_witness :
    SemanticSearch.optStrTruthy SemanticSearch.cDate2023.date = true ∧
    SemanticSearch.substr (toString (2023 : Int))
      (SemanticSearch.cDate2023.date.getD "") = true :=
  C8_local_filters.1 Nat (fun _ => 0) (fun _ _ _ => some [SemanticSearch.cDate2023]) 0 [] "q"
    5 SemanticSearch.thr055 2023 none SemanticSearch.cDate2023 (by decide) (by decide)

namespace SemanticSearch

/-- Results of `search` come from the service response filtered by the
local filters. -/
theorem mem_search_localFilter {V : Type} (provider : String → V)
    (svc : V → Nat → ℚ → Option (List Candidate)) (now : Nat)
    (table : List (QueryRow V)) (query : String) (tk : Nat) (th : ℚ)
    (yr : Option Int) (kw : Option String) (r : Candidate)
    (hr : r ∈ (search provider svc now table query tk th yr kw).1) :
    r ∈ localFilter yr kw
      ((svc (get_or_create_query_embedding provider now table query).1 100 th).getD []) :=
  (List.perm_insertionSort simDescR _).subset (List.mem_of_mem_take hr)

/-- With a truthy year, every result passes the date filter. -/
theorem mem_search_year {V : Type} (provider : String → V)
    (svc : V → Nat → ℚ → Option (List Candidate)) (now : Nat)
    (table : List (QueryRow V)) (query : String) (tk : Nat) (th : ℚ)
    (y : Int) (kw : Option String) (r : Candidate) (hy : y ≠ 0)
    (hr : r ∈ (search provider svc now table query tk th (some y) kw).1) :
    optStrTruthy r.date = true ∧ substr (toString y) (r.date.getD "") = true := by
  have h1 := mem_search_localFilter provider svc now table query tk th (some y) kw r hr
  have hyt : optIntTruthy (some y) = true := by simp [optIntTruthy, hy]
  unfold localFilter at h1
  rw [hyt] at h1
  simp only [if_true] at h1
  have h2 : r ∈ ((svc (get_or_create_query_embedding
      provider now table query).1 100 th).getD []).filter (fun r =>
      optStrTruthy r.date && substr (toString ((some y : Option Int).getD 0)) (r.date.getD "")) := by
    by_cases hkw : optStrTruthy kw
    · rw [if_pos hkw] at h1
      exact List.mem_of_mem_filter h1
    · rw [if_neg hkw] at h1
      exact h1
  have h3 := (List.mem_filter.mp h2).2
  simpa using h3

/-- With a truthy keyword, every result passes the title filter. -/
theorem mem_search_keyword {V : Type} (provider : String → V)
    (svc : V → Nat → ℚ → Option (List Candidate)) (now : Nat)
    (table : List (QueryRow V)) (query : String) (tk : Nat) (th : ℚ)
    (yr : Option Int) (k : String) (r : Candidate) (hk : k ≠ "")
    (hr : r ∈ (search provider svc now table query tk th yr (some k)).1) :
    substr (strLower k) (strLower (r.title.getD "")) = true := by
  have h1 := mem_search_localFilter provider svc now table query tk th yr (some k) r hr
  have hkt : optStrTruthy (some k) = true := by simp [optStrTruthy, hk]
  unfold localFilter at h1
  rw [hkt] at h1
  simp only [if_true] at h1
  have h3 := (List.mem_filter.mp h1).2
  simpa using h3

end SemanticSearch

/-- C10 counterexample: the year clause fails at the supplied year `0`
— `if year:` treats `0` as no filter, so a candidate with an absent
date survives. -/
theorem C10_counterexample_year_zero :
    (SemanticSearch.search (fun _ => (0 : Nat))
      (fun _ _ _ => some [SemanticSearch.cNoDate]) 0 [] "q" 5 SemanticSearch.thr055
      (some 0) none).1 = [SemanticSearch.cNoDate] ∧
    SemanticSearch.cNoDate.date = none := by
  decide

/-- C10 (amended to non-zero years): with a non-empty keyword every
returned candidate has a present title (an absent title is coerced to
`""`, which cannot contain the keyword); with a non-zero year every
returned candidate has a present, non-empty date. -/
theorem C10_absent_fields_excluded :
    (∀ (V : Type) (provider : String → V)
       (svc : V → Nat → ℚ → Option (List SemanticSearch.Candidate))
       (now : Nat) (table : List (SemanticSearch.QueryRow V)) (query : String)
       (tk : Nat) (th : ℚ) (yr : Option Int) (k : String)
       (r : SemanticSearch.Candidate),
       k ≠ "" →
       r ∈ (SemanticSearch.search provider svc now table query tk th yr (some k)).1 →
       r.title ≠ none) ∧
    (∀ (V : Type) (provider : String → V)
       (svc : V → Nat → ℚ → Option (List SemanticSearch.Candidate))
       (now : Nat) (table : List (SemanticSearch.QueryRow V)) (query : String)
       (tk : Nat) (th : ℚ) (y : Int) (kw : Option String)
       (r : SemanticSearch.Candidate),
       y ≠ 0 →
       r ∈ (SemanticSearch.search provider svc now table query tk th (some y) kw).1 →
       r.date ≠ none ∧ r.date ≠ some "") := by
  constructor
  · intro V provider svc now table query tk th yr k r hk hr htitle
    have h := SemanticSearch.mem_search_keyword provider svc now table query tk th yr k r hk hr
    rw [htitle] at h
    have hdata : (SemanticSearch.strLower k).data ≠ [] := by
      show k.data.map Char.toLower ≠ []
      simpa using SemanticSearch.data_ne_nil_of_ne_empty hk
    rw [show SemanticSearch.strLower ((none : Option String).getD "") = "" from rfl] at h
    rw [SemanticSearch.substr_empty_right _ hdata] at h
    cases h
  · intro V provider svc now table query tk th y kw r hy hr
    have h := (SemanticSearch.mem_search_year provider svc now table query tk th y kw r hy hr).1
    cases hd : r.date with
    | none => rw [hd] at h; cases h
    | some s =>
      rw [hd] at h
      have hs : s ≠ "" := by simpa [SemanticSearch.optStrTruthy] using h
      exact ⟨by simp, by simpa using hs⟩

/-- Witness for C10 with year 2023 and a candidate dated 2023-01-01. -/
theorem C10_absent_fields_excluded_witness :
    SemanticSearch.cDate2023.date ≠ none ∧ SemanticSearch.cDate2023.date ≠ some "" :=
  C10_absent_fields_excluded.2 Nat (fun _ => 0)
    (fun _ _ _ => some [SemanticSearch.cDate2023]) 0 [] "q" 5 SemanticSearch.thr055
    2023 none SemanticSearch.cDate2023 (by decide) (by decide)

namespace SemanticSearch

/-- Rerunning the embedding lookup on the table produced by a first run
returns the same vector: a miss stores the provider's vector and the
second run hits it; a hit leaves the stored vector unchanged. -/
theorem get_or_create_second_fst {V : Type} (provider : String → V) (now now2 : Nat)
    (table : List (QueryRow V)) (q : String) :
    (get_or_create_query_embedding provider now2
      (get_or_create_query_embedding provider now table q).2.1 q).1 =
    (get_or_create_query_embedding provider now table q).1 := by
  set h := _qhash (_normalize q) with hh
  have hpred : ∀ m : Nat, ((fun r : QueryRow V => decide (r.query_hash = h)) ∘
      (fun r2 : QueryRow V =>
        if r2.query_hash = h then { r2 with uses := r2.uses + 1, last_used_at := m } else r2)) =
      (fun r : QueryRow V => decide (r.query_hash = h)) := by
    intro m
    funext r2
    by_cases hr : r2.query_hash = h <;> simp [Function.comp, hr]
  cases hf : table.find? (fun r => r.query_hash = h) with
  | none =>
    have hcall1 : get_or_create_query_embedding provider now table q =
        (provider (_normalize q),
         table ++ [⟨_normalize q, h, provider (_normalize q), 1, now⟩], 1) := by
      simp only [get_or_create_query_embedding, ← hh, hf]
    rw [hcall1]
    have hfind1 : (table ++ [(⟨_normalize q, h,
        provider (_normalize q), 1, now⟩ : QueryRow V)]).find?
        (fun r => r.query_hash = h) =
        some ⟨_normalize q, h, provider (_normalize q), 1, now⟩ := by
      rw [List.find?_append, hf]
      simp [List.find?]
    simp only [get_or_create_query_embedding, ← hh, hfind1]
  | some r =>
    have hru : ∀ m : Nat, ((fun r2 : QueryRow V => decide (r2.query_hash = h)) ∘
        (fun r2 : QueryRow V =>
          if r2.query_hash = h then { r2 with uses := r.uses + 1, last_used_at := m } else r2)) =
        (fun r2 : QueryRow V => decide (r2.query_hash = h)) := by
      intro m
      funext r2
      by_cases hr : r2.query_hash = h <;> simp [Function.comp, hr]
    have hcall1 : get_or_create_query_embedding provider now table q =
        (r.embedding,
         table.map (fun r2 =>
           if r2.query_hash = h then { r2 with uses := r.uses + 1, last_used_at := now }
           else r2), 0) := by
      simp only [get_or_create_query_embedding, ← hh, hf]
    rw [hcall1]
    have hfind2 : (table.map (fun r2 =>
        if r2.query_hash = h then { r2 with uses := r.uses + 1, last_used_at := now }
        else r2)).find? (fun r2 => r2.query_hash = h) =
        some (if r.query_hash = h then { r with uses := r.uses + 1, last_used_at := now }
          else r) := by
      rw [List.find?_map, hru now, hf]
      rfl
    have hrh : r.query_hash = h := by
      have := List.find?_some hf
      simpa using this
    rw [if_pos hrh] at hfind2
    simp only [get_or_create_query_embedding, ← hh, hfind2]

/-- Descending similarity with ties broken by smaller arrival index:
the order a stable descending sort realizes on index-tagged input. -/
def lexR (a b : Nat × Candidate) : Prop :=
  b.2.similarity < a.2.similarity ∨ (a.2.similarity = b.2.similarity ∧ a.1 ≤ b.1)

instance : DecidableRel lexR :=
  fun a b => inferInstanceAs (Decidable (b.2.similarity < a.2.similarity ∨
    (a.2.similarity = b.2.similarity ∧ a.1 ≤ b.1)))

/-- Unfolding `orderedInsert` on a cons cell for the tagged order. -/
theorem orderedInsert_cons_lex (x y : Nat × Candidate) (m : List (Nat × Candidate)) :
    List.orderedInsert lexR x (y :: m) =
      if lexR x y then x :: y :: m else y :: List.orderedInsert lexR x m := rfl

/-- Unfolding `orderedInsert` on a cons cell for the untagged order. -/
theorem orderedInsert_cons_sim (c d : Candidate) (m : List Candidate) :
    List.orderedInsert simDescR c (d :: m) =
      if simDescR c d then c :: d :: m else d :: List.orderedInsert simDescR c m := rfl

/-- Unfolding `insertionSort` on a cons cell for the tagged order. -/
theorem insertionSort_cons_lex (x : Nat × Candidate) (l : List (Nat × Candidate)) :
    List.insertionSort lexR (x :: l) =
      List.orderedInsert lexR x (List.insertionSort lexR l) := rfl

/-- Unfolding `insertionSort` on a cons cell for the untagged order. -/
theorem insertionSort_cons_sim (c : Candidate) (l : List Candidate) :
    List.insertionSort simDescR (c :: l) =
      List.orderedInsert simDescR c (List.insertionSort simDescR l) := rfl

/-- Inserting an index-tagged candidate whose index is below every
index in the list acts like untagged insertion. -/
theorem map_snd_orderedInsert (i : Nat) (c : Candidate) :
    ∀ m : List (Nat × Candidate), (∀ x ∈ m, i < x.1) →
      (List.orderedInsert lexR (i, c) m).map Prod.snd =
        List.orderedInsert simDescR c (m.map Prod.snd) := by
  intro m
  induction m with
  | nil => intro hm; rfl
  | cons x m' ih =>
    intro hm
    have hix : i < x.1 := hm x (List.mem_cons_self x m')
    have hiff : lexR (i, c) x ↔ simDescR c x.2 := by
      unfold lexR simDescR
      constructor
      · rintro (hlt | ⟨heq, _⟩)
        · exact le_of_lt hlt
        · exact le_of_eq heq.symm
      · intro hle
        rcases lt_or_eq_of_le hle with hlt | heq
        · exact Or.inl hlt
        · exact Or.inr ⟨heq.symm, le_of_lt hix⟩
    by_cases hc : simDescR c x.2
    · rw [orderedInsert_cons_lex, if_pos (hiff.mpr hc)]
      simp only [List.map_cons]
      rw [orderedInsert_cons_sim, if_pos hc]
    · rw [orderedInsert_cons_lex, if_neg (fun hl => hc (hiff.mp hl))]
      simp only [List.map_cons]
      rw [orderedInsert_cons_sim, if_neg hc]
      rw [ih (fun y hy => hm y (List.mem_cons_of_mem x hy))]

/-- Stability: sorting index-tagged candidates by (similarity
descending, index ascending) and dropping the tags equals the stable
sort used by `search`. -/
theorem map_snd_sortLex :
    ∀ l : List (Nat × Candidate), l.Pairwise (fun a b => a.1 < b.1) →
      (List.insertionSort lexR l).map Prod.snd =
        List.insertionSort simDescR (l.map Prod.snd) := by
  intro l
  induction l with
  | nil => intro hp; rfl
  | cons x l' ih =>
    intro hp
    rcases List.pairwise_cons.mp hp with ⟨hx, hp'⟩
    rw [insertionSort_cons_lex]
    have hm : ∀ y ∈ List.insertionSort lexR l', x.1 < y.1 :=
      fun y hy => hx y ((List.perm_insertionSort lexR l').subset hy)
    rw [map_snd_orderedInsert x.1 x.2 _ hm, ih hp', List.map_cons, insertionSort_cons_sim]

/-- The enumeration of a list has strictly increasing indices. -/
theorem enum_pairwise_fst_lt (l : List Candidate) :
    l.enum.Pairwise (fun a b => a.1 < b.1) := by
  have h := List.pairwise_lt_range l.length
  rw [← List.enum_map_fst l] at h
  exact List.pairwise_map.mp h

end SemanticSearch

/-- C9: a second run of `search` with the same arguments on the state
left by a first run returns the identical result list; for a fixed
service response the result is the `top_k`-prefix of the arrival-order
enumeration sorted by (similarity descending, arrival index ascending)
— the sort is stable, equal similarities stay in arrival order — and
the local filters only select from the response, preserving arrival
order. -/
theorem C9_deterministic_and_stable :
    (∀ (V : Type) (provider : String → V)
       (svc : V → Nat → ℚ → Option (List SemanticSearch.Candidate))
       (now now2 : Nat) (table : List (SemanticSearch.QueryRow V)) (query : String)
       (tk : Nat) (th : ℚ) (yr : Option Int) (kw : Option String),
       (SemanticSearch.search provider svc now2
         (SemanticSearch.search provider svc now table query tk th yr kw).2
         query tk th yr kw).1 =
       (SemanticSearch.search provider svc now table query tk th yr kw).1) ∧
    (∀ (V : Type) (provider : String → V) (now : Nat)
       (table : List (SemanticSearch.QueryRow V)) (query : String)
       (tk : Nat) (th : ℚ) (yr : Option Int) (kw : Option String)
       (rows : List SemanticSearch.Candidate),
       (SemanticSearch.search provider (fun _ _ _ => some rows)
          now table query tk th yr kw).1 =
         ((List.insertionSort SemanticSearch.lexR
             ((SemanticSearch.localFilter yr kw rows).enum)).map Prod.snd).take tk) ∧
    (∀ (yr : Option Int) (kw : Option String) (rows : List SemanticSearch.Candidate),
       (SemanticSearch.localFilter yr kw rows).Sublist rows) := by
  refine ⟨?_, ?_, ?_⟩
  · intro V provider svc now now2 table query tk th yr kw
    show (List.insertionSort _ (SemanticSearch.localFilter yr kw
      ((svc (SemanticSearch.get_or_create_query_embedding provider now2
        (SemanticSearch.get_or_create_query_embedding provider now table query).2.1 query).1
        100 th).getD []))).take tk = _
    rw [SemanticSearch.get_or_create_second_fst]
    rfl
  · intro V provider now table query tk th yr kw rows
    rw [SemanticSearch.map_snd_sortLex _ (SemanticSearch.enum_pairwise_fst_lt _),
        List.enum_map_snd]
    rfl
  · intro yr kw rows
    unfold SemanticSearch.localFilter
    by_cases hy : SemanticSearch.optIntTruthy yr <;>
      by_cases hk : SemanticSearch.optStrTruthy kw <;>
      simp only [hy, hk, if_true, if_false]
    · exact (List.filter_sublist _).trans (List.filter_sublist _)
    · exact List.filter_sublist _
    · exact List.filter_sublist _
    · exact List.Sublist.refl _
